import Mathlib

/-!
Verification development for the 10-K extraction-and-evaluation pipeline
(`extract_10k_data.py`).

Modelling conventions (shallow embedding of the Python source):
- Python strings are `List Char`; Python floats are modelled as exact
  rationals `ℚ` (the claims under study are about the comparison and
  normalisation structure, not floating-point rounding); the IEEE value
  `inf` produced by `float('inf')` is modelled by the dedicated
  constructor `ExtRelErr.infty`.
- Fallible Python code (code that can raise) returns `Except Unit _`;
  `Except.error ()` models an uncaught exception (e.g. `ZeroDivisionError`,
  pydantic `ValidationError`).
- Python dicts keyed by strings are association lists with
  last-write-wins insertion.
- `float(...)` / `int(...)` literal parsing is embedded for finite decimal
  literals (sign, digits with single underscores between digits, decimal
  point, exponent), which is the fragment the cleaned inputs of this
  program can produce.
-/

namespace Edgar

/-- Whitespace as recognised by Python's `str.strip` / `str.split`
(restricted to the ASCII whitespace characters). -/
def isPySpace (c : Char) : Bool :=
  c = ' ' ∨ c = '\t' ∨ c = '\n' ∨ c = '\r'

/-- Python `str.strip()`: drop leading and trailing whitespace. -/
def pyStrip (s : List Char) : List Char :=
  ((s.dropWhile isPySpace).reverse.dropWhile isPySpace).reverse

/-- Python `str.zfill(width)`: left-pad with zeros to `width`, keeping a
leading sign character in front of the padding. -/
def zfill (width : Nat) (s : List Char) : List Char :=
  if width ≤ s.length then s
  else
    match s with
    | [] => List.replicate width '0'
    | c :: rest =>
        if c = '+' ∨ c = '-' then
          c :: (List.replicate (width - s.length) '0' ++ rest)
        else
          List.replicate (width - s.length) '0' ++ (c :: rest)

/-- Helper for `pySplit`: accumulates the current word in reverse. -/
def pySplitAux : List Char → List Char → List (List Char)
  | [], acc => if acc.isEmpty then [] else [acc.reverse]
  | c :: cs, acc =>
      if isPySpace c then
        if acc.isEmpty then pySplitAux cs [] else acc.reverse :: pySplitAux cs []
      else
        pySplitAux cs (c :: acc)

/-- Python `str.split()` with no argument: split on runs of whitespace,
discarding empty words. -/
def pySplit (s : List Char) : List (List Char) :=
  pySplitAux s []

/-- Python `' '.join(words)`. -/
def joinSpace : List (List Char) → List Char
  | [] => []
  | [w] => w
  | w :: ws => w ++ ' ' :: joinSpace ws

/-- Numeric value of an ASCII digit. -/
def digitVal (c : Char) : Option Nat :=
  if '0' ≤ c ∧ c ≤ '9' then some (c.toNat - '0'.toNat) else none

/-- Parses the rest of a digit run `(_? digit)*` (single underscores
allowed only between digits, as Python's `int`/`float` literals allow),
also counting the digits consumed. -/
def digitsUAux : List Char → Nat → Nat → Option (Nat × Nat)
  | [], acc, k => some (acc, k)
  | c :: cs, acc, k =>
      if c = '_' then
        match cs with
        | [] => none
        | c2 :: cs2 =>
            match digitVal c2 with
            | some d => digitsUAux cs2 (acc * 10 + d) (k + 1)
            | none => none
      else
        match digitVal c with
        | some d => digitsUAux cs (acc * 10 + d) (k + 1)
        | none => none

/-- Parses a full nonempty digit run `digit (_? digit)*`, returning its
value and its digit count. -/
def parsePyNatCount (s : List Char) : Option (Nat × Nat) :=
  match s with
  | [] => none
  | c :: cs =>
      match digitVal c with
      | some d => digitsUAux cs d 1
      | none => none

/-- Parses a full nonempty digit run, value only. -/
def parsePyNat (s : List Char) : Option Nat :=
  (parsePyNatCount s).map Prod.fst

/-- Python `int(s)` on an already-stripped string: optional sign then a
digit run.  Returns `none` when `int` would raise `ValueError`. -/
def parsePyInt (s : List Char) : Option Int :=
  match s with
  | [] => none
  | c :: rest =>
      if c = '+' then (parsePyNat rest).map Int.ofNat
      else if c = '-' then (parsePyNat rest).map (fun n => -(n : Int))
      else (parsePyNat (c :: rest)).map Int.ofNat

/-- Splits a string at the first character satisfying `p`; the second
component is `none` when no such character occurs. -/
def splitAtFirst (p : Char → Bool) : List Char → List Char × Option (List Char)
  | [] => ([], none)
  | c :: cs =>
      if p c then ([], some cs)
      else
        let r := splitAtFirst p cs
        (c :: r.1, r.2)

/-- Parses the unsigned mantissa of a float literal
(`digits [. digits?] | . digits | digits .`) into `(m, k)` with value
`m / 10 ^ k`. -/
def parseDecimalParts (s : List Char) : Option (Nat × Nat) :=
  let r := splitAtFirst (fun c => c = '.') s
  match r.2 with
  | none => (parsePyNat r.1).map (fun n => (n, 0))
  | some fp =>
      match r.1, fp with
      | [], [] => none
      | [], _ => parsePyNatCount fp
      | ip, [] => (parsePyNat ip).map (fun n => (n, 0))
      | ip, _ => do
          let n ← parsePyNat ip
          let vk ← parsePyNatCount fp
          pure (n * 10 ^ vk.2 + vk.1, vk.2)

/-- Parses a finite float literal into sign, scaled mantissa, fractional
digit count and decimal exponent. -/
def parseFloatParts (s : List Char) : Option (Bool × Nat × Nat × Int) :=
  let core : Bool → List Char → Option (Bool × Nat × Nat × Int) := fun neg m =>
    let r := splitAtFirst (fun c => c = 'e' ∨ c = 'E') m
    match r.2 with
    | none => (parseDecimalParts r.1).map (fun mk => (neg, mk.1, mk.2, 0))
    | some es => do
        let mk ← parseDecimalParts r.1
        let e ← parsePyInt es
        pure (neg, mk.1, mk.2, e)
  match s with
  | [] => none
  | c :: rest =>
      if c = '+' then core false rest
      else if c = '-' then core true rest
      else core false (c :: rest)

/-- The rational value `± m / 10 ^ k * 10 ^ e`, assembled as a single
integer quotient. -/
def ratOfParts (neg : Bool) (m k : Nat) (e : Int) : ℚ :=
  let mz : Int := if neg then -(m : Int) else (m : Int)
  if 0 ≤ e then Rat.divInt (mz * (10 : Int) ^ e.toNat) ((10 : Int) ^ k)
  else Rat.divInt mz ((10 : Int) ^ (k + (-e).toNat))

/-- Python `float(s)` on an already-stripped finite decimal literal:
optional sign, mantissa, optional `e`/`E` exponent.  Returns `none` when
`float` would raise `ValueError`. -/
def parsePyFloat (s : List Char) : Option ℚ :=
  match parseFloatParts s with
  | some p => some (ratOfParts p.1 p.2.1 p.2.2.1 p.2.2.2)
  | none => none

deriving instance DecidableEq for Except

/-- A dynamically typed Python value, as far as the validators of this
program inspect one: `None`, a `str`, or a number (`int`/`float` both
modelled as `ℚ`). -/
inductive PyVal
  | pyNone
  | pyStr (s : List Char)
  | pyNum (q : ℚ)
deriving DecidableEq

/-- The cleaning pipeline of `FinancialMetrics.validate_numeric`:
`v.replace(',', '').replace('$', '').replace('(', '-').replace(')', '').strip()`. -/
def cleanNumericStr (s : List Char) : List Char :=
  pyStrip ((((s.filter (fun c => c ≠ ',')).filter
      (fun c => c ≠ '$')).map
      (fun c => if c = '(' then '-' else c)).filter
      (fun c => c ≠ ')'))

/-- `FinancialMetrics.validate_numeric`: the `mode='before'` validator of
`total_revenue` and `net_income`. -/
def validateNumeric : PyVal → Option ℚ
  | .pyNone => none
  | .pyStr s =>
      if s = [] then none
      else
        let v := cleanNumericStr s
        if v = [] ∨ v = ['-'] then none
        else parsePyFloat v
  | .pyNum q => some q

/-- The cleaning pipeline shared by `validate_cik` and the CIK comparison
in `Evaluator.evaluate`: `v.replace('-', '').replace(' ', '').strip()`. -/
def cleanCikStr (s : List Char) : List Char :=
  pyStrip ((s.filter (fun c => c ≠ '-')).filter (fun c => c ≠ ' '))

/-- Python `str(n)` for an integer. -/
def intToStr (n : Int) : List Char :=
  if n < 0 then '-' :: Nat.toDigits 10 n.natAbs else Nat.toDigits 10 n.toNat

/-- Python `int(v)` on a number: truncation toward zero. -/
def pyIntOfRat (q : ℚ) : Int :=
  let m : Nat := q.num.natAbs / q.den
  if q.num < 0 then -(m : Int) else (m : Int)

/-- `FinancialMetrics.validate_cik`: the `mode='before'` validator of the
`cik` field. -/
def validateCik : PyVal → Option (List Char)
  | .pyNone => none
  | .pyNum q => some (zfill 10 (intToStr (pyIntOfRat q)))
  | .pyStr s =>
      if s = [] then none
      else
        let clean := cleanCikStr s
        if clean = [] then none
        else
          match parsePyInt clean with
          | some n => some (zfill 10 (intToStr n))
          | none => some (pyStrip s)

/-- The `FinancialMetrics` pydantic model after validation: ticker is
required, every other field is optional. -/
structure FinancialMetrics where
  company_ticker : List Char
  fiscal_year : Option Int
  cik : Option (List Char)
  total_revenue : Option ℚ
  net_income : Option ℚ
deriving DecidableEq

/-- A keyword-argument dict passed to `FinancialMetrics(**d)`: each field
either absent or bound to a Python value (extra keys are ignored by the
model configuration and so are not represented). -/
structure RawDict where
  company_ticker : Option PyVal := none
  fiscal_year : Option PyVal := none
  cik : Option PyVal := none
  total_revenue : Option PyVal := none
  net_income : Option PyVal := none
deriving DecidableEq

/-- Pydantic coercion of a value into `Optional[int]` (the `fiscal_year`
field): `None` passes, an integral number passes, an integer-literal
string is coerced, anything else raises `ValidationError`. -/
def coerceOptInt : PyVal → Except Unit (Option Int)
  | .pyNone => Except.ok none
  | .pyNum q => if q.den = 1 then Except.ok (some q.num) else Except.error ()
  | .pyStr s =>
      match parsePyInt (pyStrip s) with
      | some n => Except.ok (some n)
      | none => Except.error ()

/-- `FinancialMetrics(**d)`: runs the field validators; raises
(`Except.error`) when `company_ticker` is missing or not a string, or when
`fiscal_year` cannot be coerced to an int. -/
def mkFinancialMetrics (d : RawDict) : Except Unit FinancialMetrics :=
  match d.company_ticker with
  | some (.pyStr t) =>
      match coerceOptInt (d.fiscal_year.getD .pyNone) with
      | Except.error u => Except.error u
      | Except.ok fy =>
          Except.ok
            { company_ticker := t
              fiscal_year := fy
              cik := validateCik (d.cik.getD .pyNone)
              total_revenue := validateNumeric (d.total_revenue.getD .pyNone)
              net_income := validateNumeric (d.net_income.getD .pyNone) }
  | _ => Except.error ()

/-- `FinancialMetrics(company_ticker=ticker)`: all optional fields default
to `None`. -/
def emptyMetrics (ticker : List Char) : FinancialMetrics :=
  { company_ticker := ticker
    fiscal_year := none
    cik := none
    total_revenue := none
    net_income := none }

/-- The value of the `.response` attribute of a wrapped LLM response, as
far as the `extract` methods inspect it.  `json.loads` is Python standard
library; a string payload is therefore modelled by the outcome of decoding
it (`none` when `json.loads` raises or yields something
`FinancialMetrics(**...)` rejects with a caught `TypeError`). -/
inductive RespPayload
  | metricsPayload (m : FinancialMetrics)
  | dictPayload (d : RawDict)
  | jsonStrPayload (decoded : Option RawDict)
  | otherPayload
deriving DecidableEq

/-- The shape of the value returned by the LLM query, as discriminated by
the `isinstance`/`hasattr` chain of `BaselineExtractor.extract` and
`RefinedExtractor.extract` (the two chains are textually identical). -/
inductive LLMResponse
  | metricsResp (m : FinancialMetrics)
  | wrappedResp (p : RespPayload)
  | dictResp (d : RawDict)
  | otherResp
deriving DecidableEq

/-- The `try`/`except`-protected parsing of a wrapped response payload:
every failure falls back to `FinancialMetrics(company_ticker=ticker)`. -/
def parseWrapped (ticker : List Char) (p : RespPayload) : FinancialMetrics :=
  match p with
  | .metricsPayload m => m
  | .dictPayload d =>
      match mkFinancialMetrics d with
      | Except.ok m => m
      | Except.error _ => emptyMetrics ticker
  | .jsonStrPayload (some d) =>
      match mkFinancialMetrics d with
      | Except.ok m => m
      | Except.error _ => emptyMetrics ticker
  | .jsonStrPayload none => emptyMetrics ticker
  | .otherPayload => emptyMetrics ticker

/-- The response post-processing of `BaselineExtractor.extract` /
`RefinedExtractor.extract`: discriminate the response shape, build a
`FinancialMetrics`, then overwrite `company_ticker` with the
caller-supplied ticker.  The top-level dict branch
(`FinancialMetrics(**response)`) is not inside any `try` and therefore
propagates a `ValidationError`. -/
def postProcess (ticker : List Char) (r : LLMResponse) : Except Unit FinancialMetrics :=
  match r with
  | .metricsResp m => Except.ok { m with company_ticker := ticker }
  | .wrappedResp p => Except.ok { parseWrapped ticker p with company_ticker := ticker }
  | .dictResp d =>
      match mkFinancialMetrics d with
      | Except.error u => Except.error u
      | Except.ok m => Except.ok { m with company_ticker := ticker }
  | .otherResp => Except.ok { emptyMetrics ticker with company_ticker := ticker }

/-- The word-accumulating loop of `BaselineExtractor._chunk_text`:
`cur` is `current_chunk`, `cs` is `current_size`; a word is `len(word)+1`
big; the current chunk is flushed when adding the next word would exceed
`size` and the chunk is nonempty; a trailing nonempty chunk is flushed at
the end. -/
def chunkLoop (size : Int) : List (List Char) → List (List Char) → Int → List (List Char)
  | [], cur, _ => if cur.isEmpty then [] else [joinSpace cur]
  | w :: ws, cur, cs =>
      if cs + ((w.length : Int) + 1) > size ∧ cur.isEmpty = false then
        joinSpace cur :: chunkLoop size ws [w] ((w.length : Int) + 1)
      else
        chunkLoop size ws (cur ++ [w]) (cs + ((w.length : Int) + 1))

/-- `BaselineExtractor._chunk_text(text, chunk_size)`: split on
whitespace, then greedily pack words into space-joined chunks. -/
def chunkText (text : List Char) (size : Int) : List (List Char) :=
  chunkLoop size (pySplit text) [] 0

/-- A value recorded in a per-metric evaluation entry: `None`, a string,
or a number. -/
inductive RecVal
  | noneV
  | strV (s : List Char)
  | numV (q : ℚ)
deriving DecidableEq

/-- A relative error: a finite rational or `float('inf')`. -/
inductive ExtRelErr
  | fin (q : ℚ)
  | infty
deriving DecidableEq

/-- Python `relative_error <= tolerance` where the left side may be
`float('inf')`. -/
def relErrLE (r : ExtRelErr) (tol : ℚ) : Bool :=
  match r with
  | .fin q => decide (q ≤ tol)
  | .infty => false

/-- `relative_error = diff / abs(gt) if gt != 0 else float('inf')` from
`Evaluator.evaluate`. -/
def relErrOf (e g : ℚ) : ExtRelErr :=
  if g ≠ 0 then .fin (|e - g| / |g|) else .infty

/-- One entry of the `results['metrics']` dict built by
`Evaluator.evaluate` (keys that a branch does not set are `none`;
`errorMsg` is the `'error'` key, `errorType` the `'error_type'` key). -/
structure MetricResult where
  extractedVal : RecVal
  groundTruth : RecVal
  matchFlag : Option Bool
  absoluteError : Option ℚ
  relativeError : Option ExtRelErr
  errorType : Option (List Char)
  errorMsg : Option (List Char)
deriving DecidableEq

/-- Python float division, which raises `ZeroDivisionError` on a zero
divisor. -/
def pyDiv (a b : ℚ) : Except Unit ℚ :=
  if b = 0 then Except.error () else Except.ok (a / b)

/-- `Evaluator._classify_error`.  Its third branch recomputes
`abs(extracted - ground_truth) / abs(ground_truth)` with Python division,
which raises `ZeroDivisionError` when the ground truth is zero. -/
def classifyError (e g : ℚ) (rel : ExtRelErr) : Except Unit (List Char) :=
  if relErrLE rel (1 / 100) then Except.ok "None (within tolerance)".toList
  else if relErrLE rel (1 / 10) then Except.ok "Minor (rounding/formatting)".toList
  else
    match pyDiv |e - g| |g| with
    | Except.error u => Except.error u
    | Except.ok d =>
        if d > 1 / 2 then Except.ok "Major (wrong value/column)".toList
        else Except.ok "Moderate (partial match)".toList

/-- The `'No ground truth available'` entry of `Evaluator.evaluate`. -/
def noGtResult (ev : RecVal) : MetricResult :=
  { extractedVal := ev
    groundTruth := .noneV
    matchFlag := none
    absoluteError := none
    relativeError := none
    errorType := none
    errorMsg := some "No ground truth available".toList }

/-- The numeric branch of the per-metric loop of `Evaluator.evaluate`
(metrics `total_revenue` and `net_income`). -/
def evalNumericMetric (tol : ℚ) (ev gv : Option ℚ) : Except Unit MetricResult :=
  match gv with
  | none => Except.ok (noGtResult (match ev with | none => .noneV | some e => .numV e))
  | some g =>
      match ev with
      | none =>
          Except.ok
            { extractedVal := .noneV
              groundTruth := .numV g
              matchFlag := some false
              absoluteError := none
              relativeError := none
              errorType := none
              errorMsg := some "Value not extracted".toList }
      | some e =>
          match classifyError e g (relErrOf e g) with
          | Except.error u => Except.error u
          | Except.ok et =>
              Except.ok
                { extractedVal := .numV e
                  groundTruth := .numV g
                  matchFlag := some (relErrLE (relErrOf e g) tol)
                  absoluteError := some |e - g|
                  relativeError := some (relErrOf e g)
                  errorType := some et
                  errorMsg := none }

/-- The CIK branch of the per-metric loop of `Evaluator.evaluate`: string
comparison after separator removal and zero-padding to 10 digits. -/
def evalCikMetric (ev gv : Option (List Char)) : MetricResult :=
  match gv with
  | none => noGtResult (match ev with | none => .noneV | some e => .strV e)
  | some g =>
      match ev with
      | none =>
          { extractedVal := .noneV
            groundTruth := .strV g
            matchFlag := some false
            absoluteError := none
            relativeError := none
            errorType := none
            errorMsg := some "Value not extracted".toList }
      | some e =>
          let ec := zfill 10 (cleanCikStr e)
          let gc := zfill 10 (cleanCikStr g)
          { extractedVal := .strV e
            groundTruth := .strV g
            matchFlag := some (decide (ec = gc))
            absoluteError := none
            relativeError := none
            errorType := some (if ec = gc then "None (exact match)".toList
                               else "Major (wrong value)".toList)
            errorMsg := none }

/-- One row of the ground-truth table (a missing/NaN cell is `none`; the
CIK cell is carried as its `str(...)` rendering). -/
structure GroundTruthRow where
  cik : Option (List Char) := none
  total_revenue : Option ℚ := none
  net_income : Option ℚ := none
deriving DecidableEq

/-- The result dict of `Evaluator.evaluate` for a ticker present in the
ground truth: the three metric entries (in loop order `cik`,
`total_revenue`, `net_income`) and the overall accuracy. -/
structure EvalResult where
  cikRes : MetricResult
  revenueRes : MetricResult
  incomeRes : MetricResult
  accuracy : ℚ
deriving DecidableEq

/-- `1` for a metric entry whose `match` is `True`. -/
def isMatchNat (m : MetricResult) : Nat :=
  if m.matchFlag = some true then 1 else 0

/-- `1` for a metric entry whose recorded `ground_truth` is not `None`. -/
def hasGtNat (m : MetricResult) : Nat :=
  if m.groundTruth ≠ RecVal.noneV then 1 else 0

/-- `matches = sum(1 for m in ... if m.get('match') is True)`. -/
def countMatches (c r n : MetricResult) : Nat :=
  isMatchNat c + isMatchNat r + isMatchNat n

/-- `total = sum(1 for m in ... if m.get('ground_truth') is not None)`. -/
def countWithGt (c r n : MetricResult) : Nat :=
  hasGtNat c + hasGtNat r + hasGtNat n

/-- `Evaluator.evaluate` for a ticker found in the ground truth: evaluate
the three metrics in order, then `accuracy = matches / total if total > 0
else 0.0`.  An exception from `_classify_error` propagates. -/
def evaluate (fm : FinancialMetrics) (gt : GroundTruthRow) (tol : ℚ) :
    Except Unit EvalResult :=
  let c := evalCikMetric fm.cik gt.cik
  match evalNumericMetric tol fm.total_revenue gt.total_revenue with
  | Except.error u => Except.error u
  | Except.ok r =>
      match evalNumericMetric tol fm.net_income gt.net_income with
      | Except.error u => Except.error u
      | Except.ok n =>
          Except.ok
            { cikRes := c
              revenueRes := r
              incomeRes := n
              accuracy :=
                if 0 < countWithGt c r n then
                  (countMatches c r n : ℚ) / (countWithGt c r n : ℚ)
                else 0 }

/-- Association-list lookup (Python dict / DataFrame index access). -/
def lookupDict (k : List Char) : List (List Char × α) → Option α
  | [] => none
  | (k', v) :: rest => if k = k' then some v else lookupDict k rest

/-- The outcome of the full `Evaluator.evaluate` method, including the
early `'Ticker not found'` return. -/
inductive EvalOutcome
  | tickerNotFound (ticker : List Char)
  | evaluated (r : EvalResult)
deriving DecidableEq

/-- `Evaluator.evaluate` including the ground-truth index lookup. -/
def evaluateFull (fm : FinancialMetrics) (table : List (List Char × GroundTruthRow))
    (tol : ℚ) : Except Unit EvalOutcome :=
  match lookupDict fm.company_ticker table with
  | none => Except.ok (.tickerNotFound fm.company_ticker)
  | some gt => (evaluate fm gt tol).map .evaluated

/-- The `--mode` option of the batch driver `main`. -/
inductive Mode
  | baselineMode
  | refinedMode
  | bothMode
deriving DecidableEq

/-- `args.mode in ['baseline', 'both']`. -/
def runsBaseline : Mode → Bool
  | .baselineMode => true
  | .bothMode => true
  | .refinedMode => false

/-- `args.mode in ['refined', 'both']`. -/
def runsRefined : Mode → Bool
  | .refinedMode => true
  | .bothMode => true
  | .baselineMode => false

/-- What the two extractor calls do for one document: the extractors call
an external LLM service, so each call is an oracle input that either
returns a record or raises with a message. -/
structure DocBehavior where
  baselineOutcome : Except (List Char) FinancialMetrics
  refinedOutcome : Except (List Char) FinancialMetrics
deriving DecidableEq

/-- What `main` stores under `results[ticker][strategy]`: either
`result.model_dump()` or the inline `{'error': str(e)}` dict written by
the `except` handler. -/
inductive StratRecord
  | metricsRec (m : FinancialMetrics)
  | errorRec (msg : List Char)
deriving DecidableEq

/-- The `results[ticker]` entry: one slot per strategy, absent when the
mode does not run that strategy. -/
structure TickerResult where
  baselineRes : Option StratRecord
  refinedRes : Option StratRecord
deriving DecidableEq

/-- Converts an extraction outcome into the stored record: the
`try`/`except` around each extractor call. -/
def toStratRecord : Except (List Char) FinancialMetrics → StratRecord
  | Except.ok m => .metricsRec m
  | Except.error e => .errorRec e

/-- The per-document body of the batch loop of `main`. -/
def processDoc (mode : Mode) (b : DocBehavior) : TickerResult :=
  { baselineRes := if runsBaseline mode then some (toStratRecord b.baselineOutcome) else none
    refinedRes := if runsRefined mode then some (toStratRecord b.refinedOutcome) else none }

/-- Python dict assignment `results[ticker] = entry`: replace an existing
binding in place or append a new one. -/
def dictInsert (k : List Char) (v : α) : List (List Char × α) → List (List Char × α)
  | [] => [(k, v)]
  | (k', v') :: rest =>
      if k = k' then (k, v) :: rest else (k', v') :: dictInsert k v rest

/-- The batch loop of `main`: process the documents in order, storing each
document's entry under its ticker. -/
def processBatchAux (mode : Mode) :
    List (List Char × DocBehavior) → List (List Char × TickerResult) →
    List (List Char × TickerResult)
  | [], acc => acc
  | (t, b) :: rest, acc => processBatchAux mode rest (dictInsert t (processDoc mode b) acc)

/-- The `results` dict that `main` serialises to the output JSON artifact
after the loop. -/
def processBatch (mode : Mode) (docs : List (List Char × DocBehavior)) :
    List (List Char × TickerResult) :=
  processBatchAux mode docs []

/-- A concrete extracted record used to exercise the evaluator. -/
def fmW : FinancialMetrics :=
  { company_ticker := "AAPL".toList
    fiscal_year := none
    cik := some "320193".toList
    total_revenue := some 100
    net_income := none }

/-- A concrete ground-truth row used to exercise the evaluator. -/
def gtW : GroundTruthRow :=
  { cik := some "0000320193".toList
    total_revenue := some 100
    net_income := some 50 }

/-- The evaluation result of `fmW` against `gtW` at the default
tolerance. -/
def rW : EvalResult :=
  { cikRes :=
      { extractedVal := .strV "320193".toList
        groundTruth := .strV "0000320193".toList
        matchFlag := some true
        absoluteError := none
        relativeError := none
        errorType := some "None (exact match)".toList
        errorMsg := none }
    revenueRes :=
      { extractedVal := .numV 100
        groundTruth := .numV 100
        matchFlag := some true
        absoluteError := some 0
        relativeError := some (ExtRelErr.fin 0)
        errorType := some "None (within tolerance)".toList
        errorMsg := none }
    incomeRes :=
      { extractedVal := .noneV
        groundTruth := .numV 50
        matchFlag := some false
        absoluteError := none
        relativeError := none
        errorType := none
        errorMsg := some "Value not extracted".toList }
    accuracy := 2 / 3 }

/-- A concrete document whose baseline extraction raises. -/
def docBad : DocBehavior :=
  { baselineOutcome := Except.error "boom".toList
    refinedOutcome := Except.ok (emptyMetrics "AAPL".toList) }

/-- A concrete document whose extractions succeed. -/
def docGood : DocBehavior :=
  { baselineOutcome := Except.ok (emptyMetrics "MSFT".toList)
    refinedOutcome := Except.ok (emptyMetrics "MSFT".toList) }

/-- A concrete two-document batch. -/
def docsW : List (List Char × DocBehavior) :=
  [("AAPL".toList, docBad), ("MSFT".toList, docGood)]

theorem parsePyFloat_nil : parsePyFloat ([] : List Char) = none := rfl

theorem parsePyFloat_dash : parsePyFloat ['-'] = none := rfl

theorem cleanNumericStr_nil : cleanNumericStr ([] : List Char) = [] := rfl

theorem cleanCikStr_nil : cleanCikStr ([] : List Char) = [] := rfl

theorem parsePyInt_nil : parsePyInt ([] : List Char) = none := rfl

/-- C4: `validate_numeric` maps `None` and `""` to `None`; a string is
cleaned of commas, dollar signs and parentheses (parentheses becoming a
leading minus, so `"$(1,234.5)"` gives `-1234.5`) and stripped; a residual
of `""` or `"-"` gives `None`; a failed float parse gives `None` without
raising; a successful parse gives that value; a numeric input is returned
unchanged via `float(v)`. -/
theorem C4_validate_numeric :
    validateNumeric .pyNone = none ∧
    validateNumeric (.pyStr "".toList) = none ∧
    validateNumeric (.pyStr "$(1,234.5)".toList) = some (-(2469 / 2 : ℚ)) ∧
    validateNumeric (.pyStr "-".toList) = none ∧
    (∀ s, cleanNumericStr s = [] ∨ cleanNumericStr s = ['-'] →
      validateNumeric (.pyStr s) = none) ∧
    (∀ s, parsePyFloat (cleanNumericStr s) = none → validateNumeric (.pyStr s) = none) ∧
    (∀ s q, parsePyFloat (cleanNumericStr s) = some q →
      validateNumeric (.pyStr s) = some q) ∧
    (∀ q, validateNumeric (.pyNum q) = some q) := by
  refine ⟨rfl, rfl, ?_, rfl, ?_, ?_, ?_, fun q => rfl⟩
  · have h : validateNumeric (.pyStr "$(1,234.5)".toList) = some (Rat.divInt (-12345) 10) := by
      decide
    rw [h]
    congr 1
    rw [Rat.divInt_eq_div]
    norm_num
  · intro s h
    by_cases hs : s = []
    · subst hs; rfl
    · simp only [validateNumeric, if_neg hs, if_pos h]
  · intro s h
    by_cases hs : s = []
    · subst hs; rfl
    · by_cases hc : cleanNumericStr s = [] ∨ cleanNumericStr s = ['-']
      · simp only [validateNumeric, if_neg hs, if_pos hc]
      · simp only [validateNumeric, if_neg hs, if_neg hc]
        exact h
  · intro s q h
    have hs : s ≠ [] := by
      intro he
      rw [he, cleanNumericStr_nil, parsePyFloat_nil] at h
      exact Option.noConfusion h
    have hc : ¬ (cleanNumericStr s = [] ∨ cleanNumericStr s = ['-']) := by
      rintro (hc | hc) <;> rw [hc] at h
      · rw [parsePyFloat_nil] at h; exact Option.noConfusion h
      · rw [parsePyFloat_dash] at h; exact Option.noConfusion h
    simp only [validateNumeric, if_neg hs, if_neg hc]
    exact h

/-- C4 witness: a concrete instance of the successful-parse clause. -/
theorem C4_witness : validateNumeric (.pyStr " 12.5 ".toList) = some (Rat.divInt 125 10) :=
  C4_validate_numeric.2.2.2.2.2.2.1 " 12.5 ".toList (Rat.divInt 125 10) (by decide)

/-- C10: `validate_cik` maps `None` and `""` to `None`; a number becomes
the digit string of its integer truncation zero-padded to 10 digits; a
string whose dash/space-cleaned form parses as an integer becomes that
integer's digit string zero-padded to 10 digits; a string whose cleaned
form is empty gives `None`; a non-numeric string is returned stripped but
otherwise unchanged, without raising. -/
theorem C10_validate_cik :
    validateCik .pyNone = none ∧
    validateCik (.pyStr "".toList) = none ∧
    (∀ q : ℚ, validateCik (.pyNum q) = some (zfill 10 (intToStr (pyIntOfRat q)))) ∧
    (∀ s n, parsePyInt (cleanCikStr s) = some n →
      validateCik (.pyStr s) = some (zfill 10 (intToStr n))) ∧
    (∀ s, s ≠ [] → cleanCikStr s = [] → validateCik (.pyStr s) = none) ∧
    (∀ s, cleanCikStr s ≠ [] → parsePyInt (cleanCikStr s) = none →
      validateCik (.pyStr s) = some (pyStrip s)) ∧
    validateCik (.pyNum 320193) = some "0000320193".toList ∧
    validateCik (.pyStr "320-193 ".toList) = some "0000320193".toList ∧
    validateCik (.pyStr "CIK 99".toList) = some "CIK 99".toList := by
  refine ⟨rfl, rfl, fun q => rfl, ?_, ?_, ?_, by decide, by decide, by decide⟩
  · intro s n h
    have hcl : cleanCikStr s ≠ [] := by
      intro he
      rw [he, parsePyInt_nil] at h
      exact Option.noConfusion h
    have hs : s ≠ [] := by
      intro he
      rw [he, cleanCikStr_nil] at hcl
      exact hcl rfl
    simp only [validateCik, if_neg hs, if_neg hcl, h]
  · intro s hs hc
    simp only [validateCik, if_neg hs, if_pos hc]
  · intro s hcl h
    have hs : s ≠ [] := by
      intro he
      rw [he, cleanCikStr_nil] at hcl
      exact hcl rfl
    simp only [validateCik, if_neg hs, if_neg hcl, h]

/-- C10 witness: a concrete instance of the numeric-string clause. -/
theorem C10_witness : validateCik (.pyStr "12-3".toList) = some (zfill 10 (intToStr 123)) :=
  C10_validate_cik.2.2.2.1 "12-3".toList 123 (by decide)

/-- C7 counterexample: a top-level dict response missing the required
`company_ticker` key makes `FinancialMetrics(**response)` raise a
`ValidationError` outside any `try`, so the post-processing produces no
record at all instead of a ticker-forced record. -/
theorem C7_counterexample :
    postProcess "AAPL".toList (.dictResp {}) = Except.error () := by
  decide

/-- C7 amended: whenever the response post-processing returns a record,
its `company_ticker` is the caller-supplied ticker, whatever the model
returned; the fallback for an unrecognised response shape is the record
with every other field `None`; and the wrapped-response branch never
raises (its dict/JSON failures all fall back to the empty record).  The
post-processing can, however, raise on a top-level dict that fails
validation. -/
theorem C7_ticker_override :
    (∀ t r m, postProcess t r = Except.ok m → m.company_ticker = t) ∧
    (∀ t, postProcess t .otherResp = Except.ok (emptyMetrics t)) ∧
    (∀ t p, postProcess t (.wrappedResp p) =
      Except.ok { parseWrapped t p with company_ticker := t }) ∧
    (∀ t, postProcess t (.wrappedResp .otherPayload) = Except.ok (emptyMetrics t)) ∧
    (∀ t, postProcess t (.wrappedResp (.jsonStrPayload none)) = Except.ok (emptyMetrics t)) ∧
    (∀ t d, mkFinancialMetrics d = Except.error () →
      postProcess t (.wrappedResp (.dictPayload d)) = Except.ok (emptyMetrics t)) := by
  refine ⟨?_, fun t => rfl, fun t p => rfl, fun t => rfl, fun t => rfl, ?_⟩
  · intro t r m h
    cases r with
    | metricsResp m0 =>
        simp only [postProcess, Except.ok.injEq] at h
        subst h; rfl
    | wrappedResp p =>
        simp only [postProcess, Except.ok.injEq] at h
        subst h; rfl
    | dictResp d =>
        simp only [postProcess] at h
        cases hm : mkFinancialMetrics d with
        | error u => rw [hm] at h; exact Except.noConfusion h
        | ok m0 =>
            rw [hm] at h
            simp only [Except.ok.injEq] at h
            subst h; rfl
    | otherResp =>
        simp only [postProcess, Except.ok.injEq] at h
        subst h; rfl
  · intro t d h
    simp only [postProcess, parseWrapped, h]
    rfl

/-- C7 witness: the ticker-forcing clause applied to a wrapped dict
payload that fails validation. -/
theorem C7_witness :
    postProcess "MSFT".toList (.wrappedResp (.dictPayload {})) =
      Except.ok (emptyMetrics "MSFT".toList) :=
  C7_ticker_override.2.2.2.2.2 "MSFT".toList {} (by decide)

/-- C2: when a numeric ground-truth value is exactly zero and an extracted
value is present, `evaluate` does set the relative error to infinity, and
infinity is not within tolerance; but `_classify_error` then divides by
`abs(ground_truth) = 0` and raises `ZeroDivisionError`, so `evaluate`
propagates an exception instead of returning a result dict. -/
theorem C2_zero_truth_raises :
    ∀ (fm : FinancialMetrics) (gt : GroundTruthRow) (tol e : ℚ),
      gt.total_revenue = some 0 → fm.total_revenue = some e →
      relErrOf e 0 = ExtRelErr.infty ∧
      relErrLE (relErrOf e 0) tol = false ∧
      classifyError e 0 (relErrOf e 0) = Except.error () ∧
      evaluate fm gt tol = Except.error () := by
  intro fm gt tol e hgt hev
  have h1 : relErrOf e 0 = ExtRelErr.infty := by simp [relErrOf]
  have h2 : relErrLE (relErrOf e 0) tol = false := by rw [h1]; rfl
  have h3 : classifyError e 0 (relErrOf e 0) = Except.error () := by
    rw [h1]
    simp [classifyError, relErrLE, pyDiv]
  have h4 : evalNumericMetric tol fm.total_revenue gt.total_revenue = Except.error () := by
    rw [hgt, hev]
    simp only [evalNumericMetric, h3]
  refine ⟨h1, h2, h3, ?_⟩
  simp only [evaluate, h4]

/-- C2 witness: a concrete extracted value of `100` against a zero ground
truth makes `evaluate` raise. -/
theorem C2_witness :
    evaluate { company_ticker := "AAPL".toList, fiscal_year := none, cik := none,
               total_revenue := some 100, net_income := none }
             { cik := none, total_revenue := some 0, net_income := none } (1 / 100)
      = Except.error () :=
  (C2_zero_truth_raises _ _ (1 / 100) 100 rfl rfl).2.2.2

theorem evaluate_ok_inv (fm : FinancialMetrics) (gt : GroundTruthRow) (tol : ℚ)
    (r : EvalResult) (h : evaluate fm gt tol = Except.ok r) :
    r.cikRes = evalCikMetric fm.cik gt.cik ∧
    evalNumericMetric tol fm.total_revenue gt.total_revenue = Except.ok r.revenueRes ∧
    evalNumericMetric tol fm.net_income gt.net_income = Except.ok r.incomeRes ∧
    r.accuracy = (if 0 < countWithGt r.cikRes r.revenueRes r.incomeRes then
        (countMatches r.cikRes r.revenueRes r.incomeRes : ℚ) /
          (countWithGt r.cikRes r.revenueRes r.incomeRes : ℚ)
      else 0) := by
  simp only [evaluate] at h
  cases h1 : evalNumericMetric tol fm.total_revenue gt.total_revenue with
  | error u => rw [h1] at h; exact Except.noConfusion h
  | ok rv =>
      rw [h1] at h
      cases h2 : evalNumericMetric tol fm.net_income gt.net_income with
      | error u => rw [h2] at h; exact Except.noConfusion h
      | ok rn =>
          rw [h2] at h
          simp only [Except.ok.injEq] at h
          subst h
          exact ⟨rfl, rfl, rfl, rfl⟩

theorem evalNumericMetric_some_some_inv (tol e g : ℚ) (m : MetricResult)
    (h : evalNumericMetric tol (some e) (some g) = Except.ok m) :
    m.matchFlag = some (relErrLE (relErrOf e g) tol) ∧
    m.groundTruth = RecVal.numV g ∧ m.errorMsg = none := by
  cases hc : classifyError e g (relErrOf e g) with
  | error u =>
      simp only [evalNumericMetric, hc] at h
      exact Except.noConfusion h
  | ok et =>
      simp only [evalNumericMetric, hc, Except.ok.injEq] at h
      subst h
      exact ⟨rfl, rfl, rfl⟩

theorem evalNumericMetric_none_some (tol g : ℚ) :
    evalNumericMetric tol none (some g) = Except.ok
      { extractedVal := .noneV
        groundTruth := .numV g
        matchFlag := some false
        absoluteError := none
        relativeError := none
        errorType := none
        errorMsg := some "Value not extracted".toList } := rfl

/-- C1: for a present, non-zero numeric ground truth: a present extracted
value is recorded with `match = True` iff the relative error is within
tolerance, and an absent extracted value is recorded as `match = False`
with error `'Value not extracted'` while still carrying its ground truth
(so it counts in the accuracy denominator). -/
theorem C1_numeric_metric_eval :
    ∀ (fm : FinancialMetrics) (gt : GroundTruthRow) (tol : ℚ) (r : EvalResult) (g : ℚ),
      evaluate fm gt tol = Except.ok r → g ≠ 0 →
      ((gt.total_revenue = some g →
        ((∀ e, fm.total_revenue = some e →
            (r.revenueRes.matchFlag = some true ↔ |e - g| / |g| ≤ tol)) ∧
         (fm.total_revenue = none →
            r.revenueRes.matchFlag = some false ∧
            r.revenueRes.errorMsg = some "Value not extracted".toList ∧
            r.revenueRes.groundTruth ≠ RecVal.noneV))) ∧
       (gt.net_income = some g →
        ((∀ e, fm.net_income = some e →
            (r.incomeRes.matchFlag = some true ↔ |e - g| / |g| ≤ tol)) ∧
         (fm.net_income = none →
            r.incomeRes.matchFlag = some false ∧
            r.incomeRes.errorMsg = some "Value not extracted".toList ∧
            r.incomeRes.groundTruth ≠ RecVal.noneV)))) := by
  intro fm gt tol r g hok hg
  obtain ⟨-, hrev, hinc, -⟩ := evaluate_ok_inv fm gt tol r hok
  constructor
  · intro hgt
    rw [hgt] at hrev
    constructor
    · intro e hev
      rw [hev] at hrev
      obtain ⟨hm, -, -⟩ := evalNumericMetric_some_some_inv tol e g r.revenueRes hrev
      rw [hm]
      simp [relErrOf, hg, relErrLE]
    · intro hev
      rw [hev, evalNumericMetric_none_some, Except.ok.injEq] at hrev
      rw [← hrev]
      refine ⟨rfl, rfl, fun hh => RecVal.noConfusion hh⟩
  · intro hgt
    rw [hgt] at hinc
    constructor
    · intro e hev
      rw [hev] at hinc
      obtain ⟨hm, -, -⟩ := evalNumericMetric_some_some_inv tol e g r.incomeRes hinc
      rw [hm]
      simp [relErrOf, hg, relErrLE]
    · intro hev
      rw [hev, evalNumericMetric_none_some, Except.ok.injEq] at hinc
      rw [← hinc]
      refine ⟨rfl, rfl, fun hh => RecVal.noConfusion hh⟩

theorem isMatchNat_le_one (m : MetricResult) : isMatchNat m ≤ 1 := by
  unfold isMatchNat
  split <;> omega

theorem evalCikMetric_match_le (ev gv : Option (List Char)) :
    isMatchNat (evalCikMetric ev gv) ≤ hasGtNat (evalCikMetric ev gv) := by
  cases gv with
  | none =>
      cases ev <;> simp [evalCikMetric, noGtResult, isMatchNat]
  | some g =>
      have h1 : hasGtNat (evalCikMetric ev (some g)) = 1 := by
        cases ev <;> simp [evalCikMetric, hasGtNat]
      rw [h1]
      exact isMatchNat_le_one _

theorem evalNumericMetric_match_le (tol : ℚ) (ev gv : Option ℚ) (m : MetricResult)
    (h : evalNumericMetric tol ev gv = Except.ok m) : isMatchNat m ≤ hasGtNat m := by
  cases gv with
  | none =>
      simp only [evalNumericMetric, Except.ok.injEq] at h
      subst h
      simp [noGtResult, isMatchNat]
  | some g =>
      cases ev with
      | none =>
          rw [evalNumericMetric_none_some, Except.ok.injEq] at h
          subst h
          simp [isMatchNat, hasGtNat]
      | some e =>
          obtain ⟨-, hgt, -⟩ := evalNumericMetric_some_some_inv tol e g m h
          have h1 : hasGtNat m = 1 := by simp [hasGtNat, hgt]
          rw [h1]
          exact isMatchNat_le_one _

theorem evaluate_counts_le (fm : FinancialMetrics) (gt : GroundTruthRow) (tol : ℚ)
    (r : EvalResult) (h : evaluate fm gt tol = Except.ok r) :
    countMatches r.cikRes r.revenueRes r.incomeRes ≤
      countWithGt r.cikRes r.revenueRes r.incomeRes := by
  obtain ⟨hc, hrev, hinc, -⟩ := evaluate_ok_inv fm gt tol r h
  have h1 : isMatchNat r.cikRes ≤ hasGtNat r.cikRes := by
    rw [hc]; exact evalCikMetric_match_le fm.cik gt.cik
  have h2 := evalNumericMetric_match_le tol fm.total_revenue gt.total_revenue r.revenueRes hrev
  have h3 := evalNumericMetric_match_le tol fm.net_income gt.net_income r.incomeRes hinc
  unfold countMatches countWithGt
  omega

/-- C3: for every result `evaluate` returns, the accuracy is the number of
matched metrics over the number of metrics with recorded ground truth, it
lies in `[0, 1]`, and it is `0.0` (not undefined) when no metric has
ground truth. -/
theorem C3_accuracy :
    ∀ (fm : FinancialMetrics) (gt : GroundTruthRow) (tol : ℚ) (r : EvalResult),
      evaluate fm gt tol = Except.ok r →
      (0 < countWithGt r.cikRes r.revenueRes r.incomeRes →
        r.accuracy = (countMatches r.cikRes r.revenueRes r.incomeRes : ℚ) /
          (countWithGt r.cikRes r.revenueRes r.incomeRes : ℚ)) ∧
      (countWithGt r.cikRes r.revenueRes r.incomeRes = 0 → r.accuracy = 0) ∧
      0 ≤ r.accuracy ∧ r.accuracy ≤ 1 := by
  intro fm gt tol r h
  obtain ⟨-, -, -, hacc⟩ := evaluate_ok_inv fm gt tol r h
  have hle := evaluate_counts_le fm gt tol r h
  by_cases hpos : 0 < countWithGt r.cikRes r.revenueRes r.incomeRes
  · rw [if_pos hpos] at hacc
    refine ⟨fun _ => hacc, fun h0 => absurd h0 (by omega), ?_, ?_⟩
    · rw [hacc]
      positivity
    · rw [hacc]
      rw [div_le_one (by exact_mod_cast hpos)]
      exact_mod_cast hle
  · rw [if_neg hpos] at hacc
    exact ⟨fun hp => absurd hp hpos, fun _ => hacc, by rw [hacc], by rw [hacc]; norm_num⟩

theorem evaluate_fmW : evaluate fmW gtW (1 / 100) = Except.ok rW := by
  have hrel : relErrOf (100 : ℚ) 100 = ExtRelErr.fin 0 := by
    norm_num [relErrOf]
  have hcls : classifyError 100 100 (ExtRelErr.fin 0) =
      Except.ok "None (within tolerance)".toList := by
    norm_num [classifyError, relErrLE]
  have hrev : evalNumericMetric (1 / 100) (some (100 : ℚ)) (some 100) = Except.ok
      rW.revenueRes := by
    simp only [evalNumericMetric, hrel, hcls, rW]
    norm_num [relErrLE]
  have hcik : evalCikMetric (some "320193".toList) (some "0000320193".toList) =
      rW.cikRes := by decide
  have hcnt1 : countWithGt rW.cikRes rW.revenueRes rW.incomeRes = 3 := by decide
  have hcnt2 : countMatches rW.cikRes rW.revenueRes rW.incomeRes = 2 := by decide
  have hinc50 : evalNumericMetric (1 / 100) (none : Option ℚ) (some (50 : ℚ)) =
      Except.ok rW.incomeRes := rfl
  simp only [evaluate, fmW, gtW, hrev, hinc50, hcik]
  have hacc : (if 0 < countWithGt rW.cikRes rW.revenueRes rW.incomeRes then
      ((countMatches rW.cikRes rW.revenueRes rW.incomeRes : Nat) : ℚ) /
        ((countWithGt rW.cikRes rW.revenueRes rW.incomeRes : Nat) : ℚ) else 0)
      = rW.accuracy := by
    rw [hcnt1, hcnt2]
    norm_num [rW]
  rw [hacc]

/-- C1 witness: the within-tolerance clause at a concrete extracted value
equal to the ground truth. -/
theorem C1_witness :
    rW.revenueRes.matchFlag = some true ∧ |(100 : ℚ) - 100| / |(100 : ℚ)| ≤ 1 / 100 := by
  have hq : |(100 : ℚ) - 100| / |(100 : ℚ)| ≤ 1 / 100 := by norm_num
  have h := ((C1_numeric_metric_eval fmW gtW (1 / 100) rW 100 evaluate_fmW
    (by norm_num)).1 rfl).1 100 rfl
  exact ⟨h.mpr hq, hq⟩

/-- C3 witness: the accuracy bounds at a concrete evaluation. -/
theorem C3_witness :
    rW.accuracy = (countMatches rW.cikRes rW.revenueRes rW.incomeRes : ℚ) /
      (countWithGt rW.cikRes rW.revenueRes rW.incomeRes : ℚ) ∧
    0 ≤ rW.accuracy ∧ rW.accuracy ≤ 1 := by
  have h := C3_accuracy fmW gtW (1 / 100) rW evaluate_fmW
  exact ⟨h.1 (by decide), h.2.2.1, h.2.2.2⟩

/-- C9: a present extracted CIK matches a present ground-truth CIK exactly
when the two strings agree after removing dashes and spaces and
zero-padding to 10 digits; in particular `"320193"` matches
`"0000320193"`. -/
theorem C9_cik_match :
    (∀ (fm : FinancialMetrics) (gt : GroundTruthRow) (tol : ℚ) (r : EvalResult)
       (e g : List Char),
       evaluate fm gt tol = Except.ok r → fm.cik = some e → gt.cik = some g →
       (r.cikRes.matchFlag = some true ↔
         zfill 10 (cleanCikStr e) = zfill 10 (cleanCikStr g))) ∧
    zfill 10 (cleanCikStr "320193".toList) = zfill 10 (cleanCikStr "0000320193".toList) ∧
    rW.cikRes.matchFlag = some true := by
  refine ⟨?_, by decide, rfl⟩
  intro fm gt tol r e g hok he hg
  obtain ⟨hc, -, -, -⟩ := evaluate_ok_inv fm gt tol r hok
  rw [hc, he, hg]
  simp [evalCikMetric, decide_eq_true_iff]

/-- C9 witness: the padded-equality criterion applied to the scenario-3
strings through a full evaluation. -/
theorem C9_witness :
    rW.cikRes.matchFlag = some true ↔
      zfill 10 (cleanCikStr "320193".toList) = zfill 10 (cleanCikStr "0000320193".toList) :=
  C9_cik_match.1 fmW gtW (1 / 100) rW "320193".toList "0000320193".toList
    evaluate_fmW rfl rfl

theorem lookupDict_dictInsert_self (k : List Char) (v : α) (d : List (List Char × α)) :
    lookupDict k (dictInsert k v d) = some v := by
  induction d with
  | nil => simp [dictInsert, lookupDict]
  | cons hd tl ih =>
      obtain ⟨k', v'⟩ := hd
      by_cases h : k = k'
      · simp [dictInsert, h, lookupDict]
      · simp only [dictInsert, if_neg h, lookupDict, ih]

theorem lookupDict_dictInsert_ne (k k' : List Char) (v : α) (d : List (List Char × α))
    (h : k ≠ k') : lookupDict k (dictInsert k' v d) = lookupDict k d := by
  induction d with
  | nil => simp [dictInsert, lookupDict, h]
  | cons hd tl ih =>
      obtain ⟨a, b⟩ := hd
      by_cases ha : k' = a
      · subst ha
        simp only [dictInsert, if_pos rfl, lookupDict, if_neg h]
      · simp only [dictInsert, if_neg ha, lookupDict, ih]

theorem processBatchAux_append (mode : Mode) (xs ys : List (List Char × DocBehavior))
    (acc : List (List Char × TickerResult)) :
    processBatchAux mode (xs ++ ys) acc = processBatchAux mode ys (processBatchAux mode xs acc) := by
  induction xs generalizing acc with
  | nil => rfl
  | cons hd tl ih =>
      obtain ⟨t, b⟩ := hd
      simp only [List.cons_append, processBatchAux]
      exact ih _

theorem processBatchAux_not_mem (mode : Mode) (docs : List (List Char × DocBehavior))
    (acc : List (List Char × TickerResult)) (t : List Char)
    (h : t ∉ docs.map Prod.fst) :
    lookupDict t (processBatchAux mode docs acc) = lookupDict t acc := by
  induction docs generalizing acc with
  | nil => rfl
  | cons hd tl ih =>
      obtain ⟨t', b⟩ := hd
      simp only [List.map_cons, List.mem_cons, not_or] at h
      simp only [processBatchAux]
      rw [ih _ h.2, lookupDict_dictInsert_ne t t' _ acc h.1]

theorem processBatchAux_lookup_isSome (mode : Mode) (docs : List (List Char × DocBehavior))
    (acc : List (List Char × TickerResult)) (t : List Char)
    (h : t ∈ docs.map Prod.fst ∨ (lookupDict t acc).isSome = true) :
    (lookupDict t (processBatchAux mode docs acc)).isSome = true := by
  induction docs generalizing acc with
  | nil =>
      cases h with
      | inl h => simp at h
      | inr h => exact h
  | cons hd tl ih =>
      obtain ⟨t', b⟩ := hd
      simp only [processBatchAux]
      apply ih
      cases h with
      | inl h =>
          simp only [List.map_cons, List.mem_cons] at h
          cases h with
          | inl h =>
              subst h
              right
              rw [lookupDict_dictInsert_self]
              rfl
          | inr h => left; exact h
      | inr h =>
          right
          by_cases ht : t = t'
          · subst ht; rw [lookupDict_dictInsert_self]; rfl
          · rw [lookupDict_dictInsert_ne t t' _ acc ht]; exact h

/-- C8: the batch driver records a raised per-document extraction as an
inline error record for that document, keeps processing (every processed
ticker has an entry in the final artifact), and the entry of a ticker's
last document is exactly that document's per-strategy result. -/
theorem C8_batch_driver :
    ∀ (mode : Mode) (docs : List (List Char × DocBehavior)),
      (∀ t, t ∈ docs.map Prod.fst → (lookupDict t (processBatch mode docs)).isSome = true) ∧
      (∀ docs1 t b docs2, docs = docs1 ++ (t, b) :: docs2 → t ∉ docs2.map Prod.fst →
        lookupDict t (processBatch mode docs) = some (processDoc mode b)) ∧
      (∀ b msg, runsBaseline mode = true → b.baselineOutcome = Except.error msg →
        (processDoc mode b).baselineRes = some (.errorRec msg)) ∧
      (∀ b msg, runsRefined mode = true → b.refinedOutcome = Except.error msg →
        (processDoc mode b).refinedRes = some (.errorRec msg)) := by
  intro mode docs
  refine ⟨?_, ?_, ?_, ?_⟩
  · intro t ht
    exact processBatchAux_lookup_isSome mode docs [] t (Or.inl ht)
  · intro docs1 t b docs2 hd hnm
    subst hd
    unfold processBatch
    rw [processBatchAux_append]
    simp only [processBatchAux]
    rw [processBatchAux_not_mem mode docs2 _ t hnm, lookupDict_dictInsert_self]
  · intro b msg hm hb
    simp [processDoc, toStratRecord, hb, hm]
  · intro b msg hm hb
    simp [processDoc, toStratRecord, hb, hm]

/-- C8 witness: a two-document batch whose first document raises in the
baseline extractor still yields entries for both tickers, the failing
document's entry carrying the inline error. -/
theorem C8_witness :
    lookupDict "AAPL".toList (processBatch .bothMode docsW) =
      some (processDoc .bothMode docBad) ∧
    (processDoc .bothMode docBad).baselineRes = some (.errorRec "boom".toList) ∧
    (lookupDict "MSFT".toList (processBatch .bothMode docsW)).isSome = true := by
  have h := C8_batch_driver .bothMode docsW
  refine ⟨?_, h.2.2.1 docBad "boom".toList rfl rfl, h.1 "MSFT".toList (by decide)⟩
  exact h.2.1 [] "AAPL".toList docBad [("MSFT".toList, docGood)] rfl (by decide)

theorem isEmpty_false_of_ne_nil {α : Type} (l : List α) (h : l ≠ []) : l.isEmpty = false := by
  cases l with
  | nil => exact absurd rfl h
  | cons a as => rfl

theorem joinSpace_cons (w : List Char) (ws : List (List Char)) (h : ws ≠ []) :
    joinSpace (w :: ws) = w ++ ' ' :: joinSpace ws := by
  cases ws with
  | nil => exact absurd rfl h
  | cons x xs => rfl

theorem joinSpace_append (b : List (List Char)) (hb : b ≠ []) :
    ∀ (a : List (List Char)), a ≠ [] →
      joinSpace (a ++ b) = joinSpace a ++ ' ' :: joinSpace b := by
  intro a
  induction a with
  | nil => intro ha; exact absurd rfl ha
  | cons x xs ih =>
      intro _
      cases xs with
      | nil =>
          rw [List.singleton_append, joinSpace_cons x b hb]
          rfl
      | cons y ys =>
          have hxs : (y :: ys : List (List Char)) ≠ [] := List.cons_ne_nil _ _
          have hxb : (y :: ys : List (List Char)) ++ b ≠ [] := by simp
          rw [List.cons_append, joinSpace_cons x ((y :: ys) ++ b) hxb,
              ih hxs, joinSpace_cons x (y :: ys) hxs]
          simp

theorem joinSpace_ne_nil (l : List (List Char)) (h : l ≠ []) (h2 : ∀ w ∈ l, w ≠ []) :
    joinSpace l ≠ [] := by
  cases l with
  | nil => exact absurd rfl h
  | cons x xs =>
      cases xs with
      | nil => exact h2 x (by simp)
      | cons y ys =>
          rw [joinSpace_cons x (y :: ys) (List.cons_ne_nil _ _)]
          simp

theorem chunkLoop_ne_nil (size : Int) (ws : List (List Char)) :
    ∀ (cur : List (List Char)) (cs : Int), cur ≠ [] → chunkLoop size ws cur cs ≠ [] := by
  induction ws with
  | nil =>
      intro cur cs h
      simp only [chunkLoop, isEmpty_false_of_ne_nil cur h]
      simp
  | cons w tl ih =>
      intro cur cs h
      simp only [chunkLoop]
      split
      · exact List.cons_ne_nil _ _
      · exact ih _ _ (by simp)

theorem chunkLoop_join (size : Int) (ws : List (List Char)) :
    ∀ (cur : List (List Char)) (cs : Int), cur ≠ [] →
      joinSpace (chunkLoop size ws cur cs) = joinSpace (cur ++ ws) := by
  induction ws with
  | nil =>
      intro cur cs h
      simp only [chunkLoop, isEmpty_false_of_ne_nil cur h]
      simp [joinSpace]
  | cons w tl ih =>
      intro cur cs h
      simp only [chunkLoop]
      split
      · have hL := chunkLoop_ne_nil size tl [w] ((w.length : Int) + 1) (List.cons_ne_nil _ _)
        rw [joinSpace_cons _ _ hL, ih [w] _ (List.cons_ne_nil _ _),
            joinSpace_append (w :: tl) (List.cons_ne_nil _ _) cur h]
        simp
      · rw [ih (cur ++ [w]) _ (by simp), List.append_assoc]
        simp

theorem pySplitAux_ne_nil (cs : List Char) :
    ∀ (acc w : List Char), w ∈ pySplitAux cs acc → w ≠ [] := by
  induction cs with
  | nil =>
      intro acc w hw
      by_cases h : acc.isEmpty = true
      · simp only [pySplitAux, if_pos h] at hw
        simp at hw
      · simp only [pySplitAux, if_neg h] at hw
        simp only [List.mem_singleton] at hw
        subst hw
        intro hrev
        rw [List.reverse_eq_nil_iff] at hrev
        subst hrev
        simp at h
  | cons c tl ih =>
      intro acc w hw
      simp only [pySplitAux] at hw
      by_cases hsp : isPySpace c = true
      · rw [if_pos hsp] at hw
        by_cases hemp : acc.isEmpty = true
        · rw [if_pos hemp] at hw
          exact ih [] w hw
        · rw [if_neg hemp] at hw
          rcases List.mem_cons.mp hw with h1 | h2
          · subst h1
            intro hrev
            rw [List.reverse_eq_nil_iff] at hrev
            subst hrev
            simp at hemp
          · exact ih [] w h2
      · rw [if_neg hsp] at hw
        exact ih (c :: acc) w hw

theorem pySplitAux_all_space (cs : List Char) (h : ∀ c ∈ cs, isPySpace c = true) :
    pySplitAux cs [] = [] := by
  induction cs with
  | nil => rfl
  | cons c tl ih =>
      have hc := h c (List.mem_cons_self c tl)
      have htl := ih (fun x hx => h x (List.mem_cons_of_mem c hx))
      simp [pySplitAux, hc, htl]

theorem flushedChunk_good (size : Int) (W cur : List (List Char)) (cs : Int)
    (hcur : cur ≠ []) (hcurW : ∀ x ∈ cur, x ≠ [] ∧ x ∈ W)
    (hcs : cs = ((joinSpace cur).length : Int) + 1)
    (hsz : (∃ x, cur = [x]) ∨ cs ≤ size) :
    joinSpace cur ≠ [] ∧ (((joinSpace cur).length : Int) ≤ size ∨
      ∃ w, w ∈ W ∧ joinSpace cur = w ∧ size < (w.length : Int)) := by
  constructor
  · exact joinSpace_ne_nil cur hcur (fun x hx => (hcurW x hx).1)
  · rcases hsz with ⟨x, hx⟩ | hle
    · subst hx
      have hmem : x ∈ W := (hcurW x (by simp)).2
      by_cases hlen : (x.length : Int) ≤ size
      · left
        simpa [joinSpace] using hlen
      · right
        exact ⟨x, hmem, by simp [joinSpace], by omega⟩
    · left
      omega

theorem chunkLoop_bounds (size : Int) (W : List (List Char)) :
    ∀ (ws cur : List (List Char)) (cs : Int),
      (∀ x ∈ ws, x ≠ [] ∧ x ∈ W) → cur ≠ [] → (∀ x ∈ cur, x ≠ [] ∧ x ∈ W) →
      cs = ((joinSpace cur).length : Int) + 1 →
      ((∃ x, cur = [x]) ∨ cs ≤ size) →
      ∀ c ∈ chunkLoop size ws cur cs,
        c ≠ [] ∧ ((c.length : Int) ≤ size ∨
          ∃ w, w ∈ W ∧ c = w ∧ size < (w.length : Int)) := by
  intro ws
  induction ws with
  | nil =>
      intro cur cs hws hcur hcurW hcs hsz c hc
      rw [show chunkLoop size [] cur cs = [joinSpace cur] from by
        simp [chunkLoop, isEmpty_false_of_ne_nil cur hcur]] at hc
      simp only [List.mem_singleton] at hc
      subst hc
      exact flushedChunk_good size W cur cs hcur hcurW hcs hsz
  | cons w tl ih =>
      intro cur cs hws hcur hcurW hcs hsz c hc
      have hwW := hws w (List.mem_cons_self w tl)
      have htlW : ∀ x ∈ tl, x ≠ [] ∧ x ∈ W := fun x hx => hws x (List.mem_cons_of_mem w hx)
      simp only [chunkLoop] at hc
      by_cases hcond : cs + ((w.length : Int) + 1) > size ∧ cur.isEmpty = false
      · rw [if_pos hcond] at hc
        rcases List.mem_cons.mp hc with hceq | hcmem
        · subst hceq
          exact flushedChunk_good size W cur cs hcur hcurW hcs hsz
        · refine ih [w] ((w.length : Int) + 1) htlW (List.cons_ne_nil _ _) ?_ ?_
            (Or.inl ⟨w, rfl⟩) c hcmem
          · intro x hx
            simp only [List.mem_singleton] at hx
            subst hx
            exact hwW
          · simp [joinSpace]
      · rw [if_neg hcond] at hc
        have hemp : cur.isEmpty = false := isEmpty_false_of_ne_nil cur hcur
        have hle : cs + ((w.length : Int) + 1) ≤ size := by
          rcases not_and_or.mp hcond with h1 | h2
          · omega
          · exact absurd hemp h2
        refine ih (cur ++ [w]) (cs + ((w.length : Int) + 1)) htlW (by simp) ?_ ?_
          (Or.inr hle) c hc
        · intro x hx
          rcases List.mem_append.mp hx with h1 | h2
          · exact hcurW x h1
          · simp only [List.mem_singleton] at h2
            subst h2
            exact hwW
        · rw [joinSpace_append [w] (List.cons_ne_nil _ _) cur hcur]
          simp only [List.length_append, List.length_cons, joinSpace]
          push_cast
          omega

/-- C5: joining the produced chunks with single spaces reconstructs the
whitespace-collapsed token sequence of the input; the chunking is a
function of that token sequence alone (determinism); and a whitespace-only
input yields zero chunks. -/
theorem C5_chunk_reconstruction :
    ∀ (text : List Char) (size : Int),
      joinSpace (chunkText text size) = joinSpace (pySplit text) ∧
      (∀ text2, pySplit text2 = pySplit text → chunkText text2 size = chunkText text size) ∧
      ((∀ c ∈ text, isPySpace c = true) → chunkText text size = []) := by
  intro text size
  refine ⟨?_, ?_, ?_⟩
  · unfold chunkText
    cases hw : pySplit text with
    | nil => rfl
    | cons w ws =>
        have hstep : chunkLoop size (w :: ws) [] 0 =
            chunkLoop size ws [w] (0 + ((w.length : Int) + 1)) := by
          simp [chunkLoop]
        rw [hstep, chunkLoop_join size ws [w] _ (List.cons_ne_nil _ _)]
        simp
  · intro t2 h
    unfold chunkText
    rw [h]
  · intro h
    unfold chunkText
    rw [show pySplit text = pySplitAux text [] from rfl, pySplitAux_all_space text h]
    rfl

/-- C5 witness: a whitespace-only input yields zero chunks. -/
theorem C5_witness : chunkText "  ".toList 10 = [] :=
  (C5_chunk_reconstruction "  ".toList 10).2.2 (by decide)

/-- C6: every produced chunk is nonempty, and no chunk is longer than the
configured size unless it is a single word that is itself longer than the
size. -/
theorem C6_chunk_bounds :
    ∀ (text : List Char) (size : Int) (c : List Char), c ∈ chunkText text size →
      c ≠ [] ∧ ((c.length : Int) ≤ size ∨
        ∃ w, w ∈ pySplit text ∧ c = w ∧ size < (w.length : Int)) := by
  intro text size c hc
  unfold chunkText at hc
  cases hw : pySplit text with
  | nil =>
      rw [hw] at hc
      simp [chunkLoop] at hc
  | cons w ws =>
      rw [hw] at hc
      have hstep : chunkLoop size (w :: ws) [] 0 =
          chunkLoop size ws [w] (0 + ((w.length : Int) + 1)) := by
        simp [chunkLoop]
      rw [hstep] at hc
      have hwne : ∀ x ∈ pySplit text, x ≠ [] := fun x hx => pySplitAux_ne_nil text [] x hx
      rw [hw] at hwne
      have hws : ∀ x ∈ ws, x ≠ [] ∧ x ∈ w :: ws := fun x hx =>
        ⟨hwne x (List.mem_cons_of_mem w hx), List.mem_cons_of_mem w hx⟩
      have hcur : ∀ x ∈ [w], x ≠ [] ∧ x ∈ w :: ws := by
        intro x hx
        simp only [List.mem_singleton] at hx
        subst hx
        exact ⟨hwne x (List.mem_cons_self x ws), List.mem_cons_self x ws⟩
      have hcs : (0 : Int) + ((w.length : Int) + 1) = ((joinSpace [w]).length : Int) + 1 := by
        simp [joinSpace]
      exact chunkLoop_bounds size (w :: ws) ws [w] (0 + ((w.length : Int) + 1))
        hws (List.cons_ne_nil _ _) hcur hcs (Or.inl ⟨w, rfl⟩) c hc

/-- C6 witness: the bound at a concrete two-word input. -/
theorem C6_witness :
    "ab".toList ≠ [] ∧ (("ab".toList.length : Int) ≤ 5 ∨
      ∃ w, w ∈ pySplit "ab cd".toList ∧ "ab".toList = w ∧ 5 < (w.length : Int)) :=
  C6_chunk_bounds "ab cd".toList 5 "ab".toList (by decide)

end Edgar
